import Mathlib

/-!
Verification of the Task ROI Manager's computational core
(`src/utils/number.ts`, `src/App.tsx`): safe number coercion,
ROI calculation, the four-key task comparator, localStorage
initialisation, formatting helpers, delete/undo, CSV escaping
and splitting, and the summary statistics.

JavaScript numbers are modelled as `JSNum`: either a finite rational or
one of the non-finite values NaN, +Infinity, -Infinity.  Arithmetic is
exact on the rationals except that division saturates to ±Infinity when
the quotient's magnitude exceeds the largest finite IEEE double, as the
program's division does (`1e308 / 1e-308` is `Infinity` in JS); rounding
and subnormal underflow are not modelled.
-/

namespace TaskROI

/-- A JavaScript number: finite (modelled as a rational) or non-finite. -/
inductive JSNum where
  | finite (q : ℚ)
  | nan
  | posInf
  | negInf
deriving DecidableEq, Repr

/-- A JavaScript value as far as `safeNumber`'s `typeof` dispatch cares:
a number, a string, or anything else (null, undefined, booleans, objects
all fall through to the final `return 0`). -/
inductive JSValue where
  | num (n : JSNum)
  | str (s : String)
  | null
  | undefined
  | boolean (b : Bool)
  | object
deriving DecidableEq, Repr

namespace JSNum

/-- `Number.isFinite`. -/
def isFinite : JSNum → Bool
  | .finite _ => true
  | _ => false

/-- The rational value of a finite JS number (junk 0 on non-finite). -/
def finVal : JSNum → ℚ
  | .finite q => q
  | _ => 0

end JSNum

/-- JavaScript `a <= b` on numbers (false whenever NaN is involved). -/
def jsLe : JSNum → JSNum → Bool
  | .finite a, .finite b => decide (a ≤ b)
  | .finite _, .posInf => true
  | .negInf, .finite _ => true
  | .negInf, .posInf => true
  | .negInf, .negInf => true
  | .posInf, .posInf => true
  | _, _ => false

/-- JavaScript `a < b` on numbers (false whenever NaN is involved). -/
def jsLt : JSNum → JSNum → Bool
  | .finite a, .finite b => decide (a < b)
  | .finite _, .posInf => true
  | .negInf, .finite _ => true
  | .negInf, .posInf => true
  | _, _ => false

/-- The largest finite IEEE double, `(2^53 - 1) * 2^971`
(≈ 1.7976931348623157e308). -/
def maxDouble : ℚ := (2 ^ 53 - 1) * 2 ^ 971

/-- JavaScript division on numbers.  Finite ÷ finite is the exact
rational quotient, except that it saturates to ±Infinity beyond the
largest finite double — IEEE overflow, observable as
`1e308 / 1e-308 = Infinity`.  Rounding, subnormal underflow and the
sign of zero are not modelled. -/
def jsDiv : JSNum → JSNum → JSNum
  | .nan, _ => .nan
  | _, .nan => .nan
  | .finite a, .finite b =>
      if b = 0 then (if a = 0 then .nan else if 0 < a then .posInf else .negInf)
      else
        let q := a / b
        if q > maxDouble then .posInf
        else if q < -maxDouble then .negInf
        else .finite q
  | .finite _, .posInf => .finite 0
  | .finite _, .negInf => .finite 0
  | .posInf, .finite b => if b < 0 then .negInf else .posInf
  | .negInf, .finite b => if b < 0 then .posInf else .negInf
  | _, _ => .nan

/-- `Number(x || 0)` for a number `x`: the falsy numbers 0 and NaN become
0, everything else passes through (`Number` is the identity on numbers). -/
def jsOrZero : JSNum → JSNum
  | .nan => .finite 0
  | x => x

/-! ### The string builtins `trim` and `toLowerCase` -/

/-- `String.prototype.trim`: drop leading and trailing whitespace
characters. -/
def listTrim (l : List Char) : List Char :=
  ((l.dropWhile Char.isWhitespace).reverse.dropWhile Char.isWhitespace).reverse

/-- `s.trim()` on a JS string. -/
def jsTrim (s : String) : String := ⟨listTrim s.data⟩

/-- `toLowerCase` on one character (ASCII range; the app's titles and
CSV fields only rely on case-insensitivity of letters). -/
def charToLower (c : Char) : Char :=
  if 'A' ≤ c && c ≤ 'Z' then Char.ofNat (c.toNat + 32) else c

/-- `s.toLowerCase()` on a JS string. -/
def jsToLower (s : String) : String := ⟨s.data.map charToLower⟩

/-! ### The `Number(string)` builtin, on a trimmed string -/

/-- Numeric value of a digit character (bases up to 16). -/
def digitVal (c : Char) : Nat :=
  if c.isDigit then c.toNat - 48
  else if 'a' ≤ c && c ≤ 'f' then c.toNat - 87
  else if 'A' ≤ c && c ≤ 'F' then c.toNat - 55
  else 0

def isHexDigit (c : Char) : Bool :=
  c.isDigit || ('a' ≤ c && c ≤ 'f') || ('A' ≤ c && c ≤ 'F')

def isOctDigit (c : Char) : Bool := '0' ≤ c && c ≤ '7'

def isBinDigit (c : Char) : Bool := c = '0' || c = '1'

/-- Value of a digit string in the given base (most significant first). -/
def digitsVal (base : Nat) (l : List Char) : Nat :=
  l.foldl (fun a c => a * base + digitVal c) 0

/-- A nonempty all-decimal-digit string, as a natural number. -/
def parseDigitsNat (ds : List Char) : Option Nat :=
  if ds ≠ [] ∧ ds.all Char.isDigit then some (digitsVal 10 ds) else none

/-- Exponent digits with optional sign. -/
def parseSignedDigits : List Char → Option Int
  | '+' :: ds => (parseDigitsNat ds).map Int.ofNat
  | '-' :: ds => (parseDigitsNat ds).map (fun n => -(n : Int))
  | ds => (parseDigitsNat ds).map Int.ofNat

/-- An exponent part `e`/`E` followed by signed digits. -/
def parseExpPart : List Char → Option Int
  | 'e' :: rest => parseSignedDigits rest
  | 'E' :: rest => parseSignedDigits rest
  | _ => none

/-- A JS unsigned decimal literal:
`digits [. digits] [exp]` or `. digits [exp]`. -/
def parseUnsignedDec (l : List Char) : Option ℚ :=
  match l.span Char.isDigit with
  | (ip, []) => if ip.isEmpty then none else some (digitsVal 10 ip : ℚ)
  | (ip, '.' :: rest2) =>
      let (fp, rest3) := rest2.span Char.isDigit
      if ip.isEmpty && fp.isEmpty then none
      else
        let base : ℚ := (digitsVal 10 ip : ℚ) + (digitsVal 10 fp : ℚ) / ((10 : ℚ) ^ fp.length)
        match rest3 with
        | [] => some base
        | _ => (parseExpPart rest3).map (fun e => base * (10 : ℚ) ^ e)
  | (ip, rest) =>
      if ip.isEmpty then none
      else (parseExpPart rest).map (fun e => (digitsVal 10 ip : ℚ) * (10 : ℚ) ^ e)

/-- A nonempty all-`isDig` string in the given base. -/
def parseRadix (isDig : Char → Bool) (base : Nat) (l : List Char) : Option ℚ :=
  if l ≠ [] ∧ l.all isDig then some (digitsVal base l : ℚ) else none

/-- The body after an explicit sign: `Infinity` or a decimal literal
(radix prefixes are not allowed after a sign in JS). -/
def parseSignedBody (neg : Bool) (l : List Char) : JSNum :=
  if l = "Infinity".data then (if neg then .negInf else .posInf)
  else match parseUnsignedDec l with
    | some q => .finite (if neg then -q else q)
    | none => .nan

/-- An unsigned numeric string: `Infinity`, a radix literal, or decimal. -/
def parseUnsignedFull (l : List Char) : JSNum :=
  if l = "Infinity".data then .posInf
  else match l with
    | '0' :: 'x' :: rest => match parseRadix isHexDigit 16 rest with
        | some q => .finite q | none => .nan
    | '0' :: 'X' :: rest => match parseRadix isHexDigit 16 rest with
        | some q => .finite q | none => .nan
    | '0' :: 'o' :: rest => match parseRadix isOctDigit 8 rest with
        | some q => .finite q | none => .nan
    | '0' :: 'O' :: rest => match parseRadix isOctDigit 8 rest with
        | some q => .finite q | none => .nan
    | '0' :: 'b' :: rest => match parseRadix isBinDigit 2 rest with
        | some q => .finite q | none => .nan
    | '0' :: 'B' :: rest => match parseRadix isBinDigit 2 rest with
        | some q => .finite q | none => .nan
    | _ => match parseUnsignedDec l with
        | some q => .finite q | none => .nan

/-- The `Number(s)` builtin applied to an already-trimmed string:
the empty string is 0, otherwise an optional sign followed by a
numeric literal, and NaN when nothing parses. -/
def jsNumberOfString (s : String) : JSNum :=
  match s.data with
  | [] => .finite 0
  | '+' :: rest => parseSignedBody false rest
  | '-' :: rest => parseSignedBody true rest
  | l => parseUnsignedFull l

/-! ### `src/utils/number.ts` -/

/-- `safeNumber(v)` from `src/utils/number.ts`: numbers pass through when
finite, strings are trimmed and parsed with `Number`, keeping the result
only when finite; everything else is 0. -/
def safeNumber : JSValue → JSNum
  | .num v => if v.isFinite then v else .finite 0
  | .str s =>
      let trimmed := jsTrim s
      if trimmed = "" then .finite 0
      else
        let n := jsNumberOfString trimmed
        if n.isFinite then n else .finite 0
  | _ => .finite 0

/-- `calculateRoi(revenue, time)` from `src/utils/number.ts`. -/
def calculateRoi (revenue time : JSNum) : JSNum :=
  let rev := safeNumber (.num revenue)
  let t := safeNumber (.num time)
  if !rev.isFinite || !t.isFinite || jsLe t (.finite 0) then .finite 0
  else jsDiv rev t

/-! ### Formatting helpers (`formatNumber`, `formatCurrency`) -/

/-- Exactly `d` decimal digit characters of `n`, most significant first
(leading zeros kept). -/
def natDigitsPadded : Nat → Nat → List Char
  | _, 0 => []
  | n, d + 1 => natDigitsPadded (n / 10) d ++ [Char.ofNat (48 + n % 10)]

/-- Chunks of at most three characters, taken from a reversed digit
list. -/
def chunk3 : List Char → List (List Char)
  | [] => []
  | a :: b :: c :: rest => [a, b, c] :: chunk3 rest
  | l => [l]

/-- Locale group separators: a comma between every three digits,
counting from the right (the `en-US`-style default locale rendering). -/
def group3 (l : List Char) : List Char :=
  (List.intercalate [','] (chunk3 l.reverse)).reverse

/-- Rounding of a scaled magnitude to an integer, half away from zero on
the magnitude (the `Intl` default `halfExpand`). -/
def roundHalfUp (x : ℚ) : ℤ := ⌊x + 1 / 2⌋

/-- `formatNumber(n, decimals)` from `src/utils/number.ts`:
`toLocaleString` with `minimumFractionDigits = maximumFractionDigits =
decimals`, after replacing a non-finite input by 0. -/
def formatNumber (n : JSNum) (decimals : Nat := 2) : String :=
  let v : ℚ := if n.isFinite then n.finVal else 0
  let neg := v < 0
  let m : ℚ := |v|
  let scaled : ℕ := (roundHalfUp (m * (10 : ℚ) ^ decimals)).toNat
  let ipart := scaled / 10 ^ decimals
  let fpart := scaled % 10 ^ decimals
  (if neg then "-" else "") ++ (⟨group3 (Nat.toDigits 10 ipart)⟩ : String) ++
    (if decimals = 0 then "" else "." ++ (⟨natDigitsPadded fpart decimals⟩ : String))

/-- `formatCurrency(n, currency)` from `src/utils/number.ts`.  The
`Intl.NumberFormat` constructor is a browser builtin and is passed in as
`intl`: it either yields a currency formatting function or throws
(`Except.error`) on an unsupported currency code.  The catch branch
falls back to `'$' + formatNumber(v)`. -/
def formatCurrency (intl : String → Except Unit (ℚ → String))
    (n : JSNum) (currency : String := "USD") : String :=
  let v : ℚ := if n.isFinite then n.finVal else 0
  match intl currency with
  | .ok fmt => fmt v
  | .error _ => "$" ++ formatNumber (.finite v)

/-! ### The task data model (`src/types.ts`) -/

inductive Priority where
  | High
  | Medium
  | Low
deriving DecidableEq, Repr

inductive Status where
  | Todo
  | InProgress
  | Done
deriving DecidableEq, Repr

/-- A task record (`src/types.ts`).  `createdAt` is the integral
`Date.now()` timestamp; `revenue`, `time` and `roi` are JS numbers. -/
structure Task where
  id : String
  createdAt : ℤ
  title : String
  revenue : JSNum
  time : JSNum
  roi : JSNum
  notes : Option String
  priority : Priority
  status : Status
deriving DecidableEq, Repr

/-- The priority ranking `{ High: 3, Medium: 2, Low: 1 }` built inside
`sortedFiltered` (`src/App.tsx`). -/
def priRank : Priority → Nat
  | .High => 3
  | .Medium => 2
  | .Low => 1

/-- Three-way comparison in a linear order: the sign of the comparator
values returned by the JS code. -/
def cmp3 {α : Type} [LinearOrder α] (a b : α) : Ordering :=
  if a < b then .lt else if b < a then .gt else .eq

/-- Sign of the JS subtraction `a - b` for non-NaN numbers, as used by
the comparator on coerced ROI keys (negative ↦ `lt`, positive ↦ `gt`).
NaN never reaches a subtraction in `sortedFiltered` because the keys go
through `|| 0`; on NaN this returns the junk value `eq`. -/
def jsCompare : JSNum → JSNum → Ordering
  | .finite a, .finite b => cmp3 a b
  | .finite _, .posInf => .lt
  | .finite _, .negInf => .gt
  | .posInf, .finite _ => .gt
  | .negInf, .finite _ => .lt
  | .posInf, .posInf => .eq
  | .negInf, .negInf => .eq
  | .posInf, .negInf => .gt
  | .negInf, .posInf => .lt
  | .nan, _ => .eq
  | _, .nan => .eq

/-- The comparator of `sortedFiltered` (`src/App.tsx`): ROI descending,
then priority rank descending, then lower-cased title ascending
(`localeCompare` modelled as character-wise string order), then
`createdAt` descending.  Result is the sign of the JS comparator's
return value. -/
def compareTasks (a b : Task) : Ordering :=
  let ar := jsOrZero a.roi
  let br := jsOrZero b.roi
  if ar ≠ br then jsCompare br ar
  else
    let ap := priRank a.priority
    let bp := priRank b.priority
    if ap ≠ bp then cmp3 bp ap
    else
      let ta := jsToLower a.title
      let tb := jsToLower b.title
      if ta ≠ tb then cmp3 ta tb
      else cmp3 b.createdAt a.createdAt

/-- The comparator as the boolean "may come first" relation used by a
stable sort: the comparator did not return a positive number. -/
def taskLE (a b : Task) : Bool := compareTasks a b ≠ Ordering.gt

/-- `.slice().sort(comparator)`: a stable sort by the comparator. -/
def sortTasks (l : List Task) : List Task := l.mergeSort taskLE

/-- The four sort keys of a task: coerced ROI, priority rank,
lower-cased title, creation timestamp. -/
def taskKey (t : Task) : JSNum × Nat × String × ℤ :=
  (jsOrZero t.roi, priRank t.priority, jsToLower t.title, t.createdAt)

/-! ### Task list state: delete / undo (`useTasks` in `src/App.tsx`) -/

/-- The slice of `useTasks` state that `deleteTask`/`undoDelete`
touch. -/
structure TasksState where
  tasks : List Task
  lastDeleted : Option Task
  snackbarOpen : Bool
deriving DecidableEq, Repr

/-- `deleteTask(id)`: remember the first task with this id (if any) for
undo, open the snackbar, and remove every task with this id. -/
def deleteTask (i : String) (s : TasksState) : TasksState :=
  match s.tasks.find? (fun x => x.id == i) with
  | some t =>
      { tasks := s.tasks.filter (fun x => !(x.id == i)),
        lastDeleted := some t, snackbarOpen := true }
  | none =>
      { tasks := s.tasks.filter (fun x => !(x.id == i)),
        lastDeleted := s.lastDeleted, snackbarOpen := s.snackbarOpen }

/-- `undoDelete()`: re-insert the remembered task at the front and clear
the snackbar state; a no-op when nothing was remembered. -/
def undoDelete (s : TasksState) : TasksState :=
  match s.lastDeleted with
  | none => s
  | some t => { tasks := t :: s.tasks, lastDeleted := none, snackbarOpen := false }

/-! ### localStorage initialisation (`useTasks` initial state) -/

/-- What `JSON.parse` can yield here: an array (cast unchecked to
`Task[]` by the code) or any non-array JSON value. -/
inductive ParsedJson where
  | arr (ts : List Task)
  | nonArray
deriving DecidableEq

/-- The `useState` initialiser of `useTasks`: read the raw stored
string; empty/absent gives `[]`; `JSON.parse` is the browser builtin,
passed in as `parse` (throwing is `Except.error`); non-array parses give
`[]`, and a parse failure is caught and gives `[]`. -/
def initialTasks (raw : Option String)
    (parse : String → Except Unit ParsedJson) : List Task :=
  match raw with
  | none => []
  | some s =>
      if s = "" then []
      else match parse s with
        | .error _ => []
        | .ok (.arr ts) => ts
        | .ok .nonArray => []

/-! ### CSV escaping and line splitting (`src/App.tsx`) -/

/-- `replaceAll('"', '""')` at the character level. -/
def doubleQuotes : List Char → List Char
  | [] => []
  | c :: cs => if c = '"' then '"' :: '"' :: doubleQuotes cs else c :: doubleQuotes cs

/-- Does a CSV field need quoting: it includes a comma, a double quote,
or a newline. -/
def isCsvSpecial (c : Char) : Bool := c = ',' || c = '"' || c = '\n'

/-- `escapeCsv(v)` from `src/App.tsx` at the character level. -/
def escList (l : List Char) : List Char :=
  if l.any isCsvSpecial then '"' :: (doubleQuotes l ++ ['"']) else l

/-- `escapeCsv(v)` from `src/App.tsx`. -/
def escapeCsv (v : String) : String := ⟨escList v.data⟩

/-- `[...].join(',')` over the escaped fields of one CSV row. -/
def joinComma : List String → String
  | [] => ""
  | [x] => x
  | x :: xs => x ++ "," ++ joinComma xs

/-- The character scan of `splitCsvLine`: `inQ` is the in-quotes flag,
`cur` the current field, `res` the fields already emitted. -/
def splitAux (inQ : Bool) (cur : List Char) (res : List (List Char)) :
    List Char → List (List Char)
  | [] => res ++ [cur]
  | c :: rest =>
      if inQ then
        if c = '"' then
          match _h : rest with
          | '"' :: rest2 => splitAux true (cur ++ ['"']) res rest2
          | _ => splitAux false cur res rest
        else splitAux true (cur ++ [c]) res rest
      else
        if c = ',' then splitAux false [] (res ++ [cur]) rest
        else if c = '"' then splitAux true cur res rest
        else splitAux false (cur ++ [c]) res rest
termination_by l => l.length
decreasing_by all_goals first
  | (simp_wf <;> omega)
  | (simp_wf <;> subst_vars <;> simp <;> omega)

/-- `splitCsvLine(line)` from `src/App.tsx`: the quote-aware field scan,
then `.map(s => s.trim())`. -/
def splitCsvLine (line : String) : List String :=
  (splitAux false [] [] line.data).map (fun cs => jsTrim ⟨cs⟩)

/-! ### Summary statistics (`totals` in `src/App.tsx`) -/

/-- The per-task ROI values kept for the average: finite and strictly
positive (`Number.isFinite(x) && x > 0`). -/
def validRois (tasks : List Task) : List JSNum :=
  (tasks.map (fun t => calculateRoi t.revenue t.time)).filter
    (fun x => x.isFinite && jsLt (.finite 0) x)

/-- Reference value for the amended C10 claim, following its words: the
computed ROI values that are finite and strictly positive, as
rationals. -/
def posRois (tasks : List Task) : List ℚ :=
  (tasks.map (fun t => calculateRoi t.revenue t.time)).filterMap
    (fun x => match x with
      | .finite v => if 0 < v then some v else none
      | _ => none)

/-- The Average ROI of `totals`: mean of `validRois`, 0 when empty. -/
def avgRoi (tasks : List Task) : ℚ :=
  let vr := validRois tasks
  if vr.length = 0 then 0 else (vr.map JSNum.finVal).sum / vr.length

/-- The Performance Grade of `totals`. -/
def performanceGrade (tasks : List Task) : String :=
  let a := avgRoi tasks
  if a ≥ 5 then "A" else if a ≥ 2 then "B" else if a > 0 then "C" else "—"

/-! ## Basic lemmas about `safeNumber` and `calculateRoi` -/

/-- Sanity: the model parses plain and radix numeric strings as the
`Number` builtin does. -/
theorem safeNumber_examples :
    safeNumber (.str "abc") = .finite 0 ∧
    safeNumber (.str "0x1A") = .finite 26 ∧
    safeNumber (.str "Infinity") = .finite 0 := by
  refine ⟨by decide, by decide, by decide⟩

theorem safeNumber_num_finite (q : ℚ) : safeNumber (.num (.finite q)) = .finite q := rfl

theorem safeNumber_num_nonfinite {n : JSNum} (h : n.isFinite = false) :
    safeNumber (.num n) = .finite 0 := by
  cases n <;> simp_all [safeNumber, JSNum.isFinite]

theorem safeNumber_isFinite (v : JSValue) : (safeNumber v).isFinite = true := by
  cases v with
  | num n => cases n <;> simp [safeNumber, JSNum.isFinite]
  | str s =>
      simp only [safeNumber]
      split
      · rfl
      · split <;> simp_all [JSNum.isFinite]
  | _ => rfl

theorem safeNumber_finite_val (v : JSValue) :
    safeNumber v = .finite (safeNumber v).finVal := by
  have h := safeNumber_isFinite v
  cases hv : safeNumber v <;> simp_all [JSNum.isFinite, JSNum.finVal]

theorem maxDouble_pos : (0 : ℚ) < maxDouble := by norm_num [maxDouble]

/-- Dividing zero by a nonzero finite number gives finite zero. -/
theorem jsDiv_zero_num {b : ℚ} (hb : b ≠ 0) :
    jsDiv (.finite 0) (.finite b) = .finite 0 := by
  rw [jsDiv, if_neg hb]
  have h0 := maxDouble_pos
  rw [zero_div, if_neg (by linarith), if_neg (by linarith)]

/-- Finite ÷ nonzero finite never gives NaN (it is finite or an
overflowed infinity). -/
theorem jsDiv_finite_ne_nan {a b : ℚ} (hb : b ≠ 0) :
    jsDiv (.finite a) (.finite b) ≠ .nan := by
  rw [jsDiv, if_neg hb]
  dsimp only
  split_ifs <;> simp

/-- `calculateRoi` on two finite operands with positive divisor is the
JS division of the operands. -/
theorem calculateRoi_pos (q r : ℚ) (hr : 0 < r) :
    calculateRoi (.finite q) (.finite r) = jsDiv (.finite q) (.finite r) := by
  simp only [calculateRoi, safeNumber_num_finite]
  rw [if_neg]
  simp [JSNum.isFinite, jsLe, not_le.mpr hr]

/-- `calculateRoi` on two finite operands, positive divisor, quotient
within the double range: the exact quotient. -/
theorem calculateRoi_pos_finite (q r : ℚ) (hr : 0 < r) (hb : |q / r| ≤ maxDouble) :
    calculateRoi (.finite q) (.finite r) = .finite (q / r) := by
  rcases abs_le.mp hb with ⟨hlo, hhi⟩
  rw [calculateRoi_pos q r hr, jsDiv, if_neg (ne_of_gt hr)]
  rw [if_neg (not_lt.mpr hhi), if_neg (not_lt.mpr hlo)]

/-- `calculateRoi` returns the constant 0 when the guard trips. -/
theorem calculateRoi_guard (rev t : JSNum)
    (h : jsLe t (.finite 0) = true ∨ t.isFinite = false ∨ rev.isFinite = false) :
    calculateRoi rev t = .finite 0 := by
  rcases h with h | h | h
  · cases t with
    | finite r =>
        have hr : r ≤ 0 := by simpa [jsLe] using h
        simp only [calculateRoi, safeNumber_num_finite]
        rw [if_pos]
        simp [jsLe, hr, safeNumber_isFinite]
    | nan => simp [jsLe] at h
    | posInf => simp [jsLe] at h
    | negInf =>
        simp only [calculateRoi, safeNumber_num_nonfinite (n := JSNum.negInf) rfl]
        rw [if_pos]
        simp [jsLe, safeNumber_isFinite]
  · cases t <;> simp_all [JSNum.isFinite] <;>
      · simp only [calculateRoi, safeNumber_num_nonfinite (n := JSNum.nan) rfl,
          safeNumber_num_nonfinite (n := JSNum.posInf) rfl,
          safeNumber_num_nonfinite (n := JSNum.negInf) rfl]
        rw [if_pos]
        simp [jsLe, safeNumber_isFinite]
  · have hrev : safeNumber (.num rev) = .finite 0 := safeNumber_num_nonfinite h
    simp only [calculateRoi, hrev]
    by_cases hg : (!(JSNum.finite 0).isFinite ||
        !(safeNumber (.num t)).isFinite || jsLe (safeNumber (.num t)) (.finite 0)) = true
    · rw [if_pos hg]
    · rw [if_neg hg]
      rw [safeNumber_finite_val (.num t)]
      have hne : (safeNumber (.num t)).finVal ≠ 0 := by
        intro h0
        apply hg
        rw [safeNumber_finite_val (.num t), h0]
        simp [jsLe]
      rw [jsDiv_zero_num hne]

/-- `calculateRoi` never returns NaN: the guard returns the constant 0,
and the guarded division has a nonzero divisor. -/
theorem calculateRoi_ne_nan (rev t : JSNum) :
    calculateRoi rev t ≠ .nan := by
  simp only [calculateRoi]
  split
  · simp
  · next hg =>
      rw [safeNumber_finite_val (.num rev), safeNumber_finite_val (.num t)]
      have hne : (safeNumber (.num t)).finVal ≠ 0 := by
        intro h0
        apply hg
        rw [safeNumber_finite_val (.num t), h0]
        simp [jsLe, safeNumber_isFinite]
      exact jsDiv_finite_ne_nan hne

/-! ## Claim C1 -/

/-- C1: `calculateRoi(revenue, time)` returns `revenue / time` — the
JS division of the operands, which is the exact quotient whenever it
lies in the double range — when `time` is a finite number greater than
0 and `revenue` is finite, and returns 0 whenever `time <= 0` or either
operand is non-finite; in particular `calculateRoi(100, 0) = 0`,
`calculateRoi(100, 4) = 25`, and `calculateRoi(-50, 2) = -25`. -/
theorem c1_calculateRoi_quotient_or_zero :
    (∀ q r : ℚ, 0 < r → calculateRoi (.finite q) (.finite r) = jsDiv (.finite q) (.finite r)) ∧
    (∀ q r : ℚ, 0 < r → |q / r| ≤ maxDouble →
      calculateRoi (.finite q) (.finite r) = .finite (q / r)) ∧
    (∀ rev t : JSNum,
      jsLe t (.finite 0) = true ∨ t.isFinite = false ∨ rev.isFinite = false →
      calculateRoi rev t = .finite 0) ∧
    calculateRoi (.finite 100) (.finite 0) = .finite 0 ∧
    calculateRoi (.finite 100) (.finite 4) = .finite 25 ∧
    calculateRoi (.finite (-50)) (.finite 2) = .finite (-25) := by
  refine ⟨calculateRoi_pos, calculateRoi_pos_finite, calculateRoi_guard, ?_, ?_, ?_⟩
  · exact calculateRoi_guard _ _ (Or.inl (by simp [jsLe]))
  · rw [calculateRoi_pos_finite 100 4 (by norm_num) (by rw [abs_le]; constructor <;> norm_num [maxDouble])]
    norm_num
  · rw [calculateRoi_pos_finite (-50) 2 (by norm_num) (by rw [abs_le]; constructor <;> norm_num [maxDouble])]
    norm_num

/-- C1 witness: the theorem applied at concrete inputs. -/
theorem c1_calculateRoi_quotient_or_zero_witness :
    calculateRoi (.finite 7) (.finite 2) = .finite (7 / 2) ∧
    calculateRoi (.finite 7) (.finite (-1)) = .finite 0 :=
  ⟨c1_calculateRoi_quotient_or_zero.2.1 7 2 (by norm_num)
     (by rw [abs_le]; constructor <;> norm_num [maxDouble]),
   c1_calculateRoi_quotient_or_zero.2.2.1 (.finite 7) (.finite (-1))
     (Or.inl (by simp [jsLe]))⟩

/-! ## Claim C3 -/

/-- C3: `safeNumber(v)` returns `v` itself when `v` is a finite number,
the parsed numeric value when `v` is a string whose trimmed form parses
to a finite number, and 0 in every other case — including `"abc"`,
`null`, `NaN`, `Infinity`, and empty or whitespace-only strings. -/
theorem c3_safeNumber_coercion :
    (∀ q : ℚ, safeNumber (.num (.finite q)) = .finite q) ∧
    (∀ s : String, ∀ q : ℚ, jsNumberOfString (jsTrim s) = .finite q →
      safeNumber (.str s) = .finite q) ∧
    (∀ n : JSNum, n.isFinite = false → safeNumber (.num n) = .finite 0) ∧
    (∀ s : String, (jsNumberOfString (jsTrim s)).isFinite = false →
      safeNumber (.str s) = .finite 0) ∧
    safeNumber .null = .finite 0 ∧
    safeNumber .undefined = .finite 0 ∧
    (∀ b : Bool, safeNumber (.boolean b) = .finite 0) ∧
    safeNumber .object = .finite 0 ∧
    safeNumber (.str "abc") = .finite 0 ∧
    safeNumber (.num .nan) = .finite 0 ∧
    safeNumber (.num .posInf) = .finite 0 ∧
    safeNumber (.str "") = .finite 0 ∧
    safeNumber (.str "   ") = .finite 0 := by
  refine ⟨fun q => rfl, ?_, fun n h => safeNumber_num_nonfinite h, ?_,
    rfl, rfl, fun b => rfl, rfl, by decide, rfl, rfl, rfl, by decide⟩
  · intro s q h
    simp only [safeNumber]
    split
    · next he =>
        rw [he] at h
        have : q = 0 := by
          have : (JSNum.finite 0) = JSNum.finite q := by
            simpa [jsNumberOfString] using h
          simpa using this.symm
        rw [this]
    · rw [h]
      simp [JSNum.isFinite]
  · intro s h
    simp only [safeNumber]
    split
    · rfl
    · rw [if_neg]
      simp [h]

/-- C3 witness: the theorem applied at concrete inputs. -/
theorem c3_safeNumber_coercion_witness :
    safeNumber (.str " 42 ") = .finite 42 ∧ safeNumber (.num .negInf) = .finite 0 :=
  ⟨c3_safeNumber_coercion.2.1 " 42 " 42 (by decide),
   c3_safeNumber_coercion.2.2.1 .negInf rfl⟩

/-! ## Claim C4 -/

/-- The overflow instance `calculateRoi(1e308, 1e-308)`: both operands
are finite doubles and the divisor is positive, so the guard passes,
but the quotient `1e616` exceeds the double range and the division
returns Infinity. -/
theorem calculateRoi_overflow_example :
    calculateRoi (.finite ((10 : ℚ) ^ 308)) (.finite (1 / (10 : ℚ) ^ 308)) = .posInf := by
  have hpos : (0 : ℚ) < 1 / (10 : ℚ) ^ 308 := by positivity
  rw [calculateRoi_pos _ _ hpos, jsDiv, if_neg (ne_of_gt hpos)]
  have hq : ((10 : ℚ) ^ 308) / (1 / (10 : ℚ) ^ 308) = (10 : ℚ) ^ 616 := by
    rw [div_div_eq_mul_div, div_one, ← pow_add]
  rw [if_pos]
  rw [hq]
  norm_num [maxDouble]

/-- C4 counterexample: the claim "calculateRoi never produces NaN or
Infinity for any inputs; the result is always a finite number" fails at
`revenue = 1e308`, `time = 1e-308`: the guard passes and the result is
Infinity, not a finite number. -/
theorem c4_overflow_counterexample :
    calculateRoi (.finite ((10 : ℚ) ^ 308)) (.finite (1 / (10 : ℚ) ^ 308)) = .posInf ∧
    (calculateRoi (.finite ((10 : ℚ) ^ 308)) (.finite (1 / (10 : ℚ) ^ 308))).isFinite
      = false ∧
    jsLe (.finite (1 / (10 : ℚ) ^ 308)) (.finite 0) = false ∧
    (JSNum.finite ((10 : ℚ) ^ 308)).isFinite = true ∧
    (JSNum.finite (1 / (10 : ℚ) ^ 308)).isFinite = true := by
  refine ⟨calculateRoi_overflow_example, ?_, ?_, rfl, rfl⟩
  · rw [calculateRoi_overflow_example]
    rfl
  · have hpos : (0 : ℚ) < 1 / (10 : ℚ) ^ 308 := by positivity
    simp [jsLe, not_le.mpr hpos]

/-- C4 (amended): `calculateRoi` never produces NaN — division happens
only when the coerced divisor is finite and strictly positive and the
dividend is finite, otherwise the constant 0 is returned — and the
result is a finite number whenever the guard trips or the quotient lies
within the double range; only a quotient overflowing the double range
yields ±Infinity. -/
theorem c4_calculateRoi_no_nan_guarded :
    (∀ rev t : JSNum, calculateRoi rev t ≠ .nan) ∧
    (∀ rev t : JSNum,
      jsLe t (.finite 0) = true ∨ t.isFinite = false ∨ rev.isFinite = false →
      (calculateRoi rev t).isFinite = true) ∧
    (∀ q r : ℚ, 0 < r → |q / r| ≤ maxDouble →
      (calculateRoi (.finite q) (.finite r)).isFinite = true) := by
  refine ⟨calculateRoi_ne_nan, ?_, ?_⟩
  · intro rev t h
    rw [calculateRoi_guard rev t h]
    rfl
  · intro q r hr hb
    rw [calculateRoi_pos_finite q r hr hb]
    rfl

/-- C4 witness: the amended theorem applied at concrete inputs, both on
the guard branch and on an in-range division. -/
theorem c4_calculateRoi_no_nan_guarded_witness :
    calculateRoi (.finite 3) (.finite 0) ≠ .nan ∧
    (calculateRoi (.finite 3) (.finite 0)).isFinite = true ∧
    (calculateRoi (.finite 100) (.finite 4)).isFinite = true :=
  ⟨c4_calculateRoi_no_nan_guarded.1 (.finite 3) (.finite 0),
   c4_calculateRoi_no_nan_guarded.2.1 (.finite 3) (.finite 0) (Or.inl (by simp [jsLe])),
   c4_calculateRoi_no_nan_guarded.2.2 100 4 (by norm_num)
     (by rw [abs_le]; constructor <;> norm_num [maxDouble])⟩

/-! ## Claim C5 -/

/-- C5: on startup, if the stored task data is absent, fails to
JSON-parse, or parses to a non-array value, the initial task list is
the empty list; otherwise it is exactly the parsed array.  No parse
failure propagates: `initialTasks` is total, the thrown case is the
`Except.error` branch of `parse` and is mapped to `[]`.  The hypothesis
`parse "" = .error ()` records that `JSON.parse` throws on the empty
string (the code never parses it, returning `[]` on the falsy raw
value). -/
theorem c5_initialTasks_defaults :
    ∀ parse : String → Except Unit ParsedJson,
      parse "" = .error () →
      initialTasks none parse = [] ∧
      (∀ s, parse s = .error () → initialTasks (some s) parse = []) ∧
      (∀ s, parse s = .ok .nonArray → initialTasks (some s) parse = []) ∧
      (∀ s ts, parse s = .ok (.arr ts) → initialTasks (some s) parse = ts) := by
  intro parse hempty
  refine ⟨rfl, ?_, ?_, ?_⟩
  · intro s hs
    simp [initialTasks, hs]
  · intro s hs
    simp [initialTasks, hs]
  · intro s ts hs
    by_cases h0 : s = ""
    · rw [h0, hempty] at hs
      exact absurd hs (by simp)
    · simp [initialTasks, hs, h0]

/-- C5 witness: the theorem applied to a concrete parse function. -/
theorem c5_initialTasks_defaults_witness :
    initialTasks none (fun _ => .error ()) = [] ∧
    initialTasks (some "nonsense") (fun _ => .error ()) = [] :=
  ⟨(c5_initialTasks_defaults (fun _ => .error ()) rfl).1,
   (c5_initialTasks_defaults (fun _ => .error ()) rfl).2.1 "nonsense" rfl⟩

/-! ## Claim C6 -/

theorem natDigitsPadded_length (n d : Nat) : (natDigitsPadded n d).length = d := by
  induction d generalizing n with
  | zero => rfl
  | succ d ih => simp [natDigitsPadded, ih]

theorem natDigitsPadded_isDigit (n d : Nat) :
    ∀ c ∈ natDigitsPadded n d, c.isDigit = true := by
  induction d generalizing n with
  | zero => simp [natDigitsPadded]
  | succ d ih =>
      intro c hc
      simp only [natDigitsPadded, List.mem_append, List.mem_singleton] at hc
      rcases hc with hc | hc
      · exact ih _ c hc
      · subst hc
        have hr : n % 10 < 10 := Nat.mod_lt _ (by norm_num)
        interval_cases h : n % 10 <;> decide

/-- C6: `formatCurrency(n, currency)` replaces a non-finite `n` by 0,
formats via the `Intl` formatter when the currency is supported, and
falls back to `'$' + formatNumber(v)` (two decimals) when the `Intl`
constructor throws; it never throws itself (it is a total function).
`formatNumber` replaces non-finite input by 0 and renders exactly the
requested number of fraction digits (default 2). -/
theorem c6_format_fallback_and_digits :
    (∀ intl : String → Except Unit (ℚ → String), ∀ n : JSNum, ∀ c : String,
      ∀ f : ℚ → String, intl c = .ok f →
      formatCurrency intl n c = f (if n.isFinite then n.finVal else 0)) ∧
    (∀ intl : String → Except Unit (ℚ → String), ∀ n : JSNum, ∀ c : String,
      intl c = .error () →
      formatCurrency intl n c =
        "$" ++ formatNumber (.finite (if n.isFinite then n.finVal else 0)) 2) ∧
    (∀ intl : String → Except Unit (ℚ → String), ∀ n : JSNum, ∀ c : String,
      n.isFinite = false → formatCurrency intl n c = formatCurrency intl (.finite 0) c) ∧
    (∀ n : JSNum, ∀ d : Nat, n.isFinite = false → formatNumber n d = formatNumber (.finite 0) d) ∧
    (∀ n : JSNum, formatNumber n = formatNumber n 2) ∧
    (∀ n : JSNum, ∀ d : Nat, 0 < d → ∃ intPart fracPart : String,
      formatNumber n d = intPart ++ "." ++ fracPart ∧
      fracPart.length = d ∧ ∀ c ∈ fracPart.data, c.isDigit = true) := by
  refine ⟨?_, ?_, ?_, ?_, fun n => rfl, ?_⟩
  · intro intl n c f hf
    simp [formatCurrency, hf]
  · intro intl n c hf
    simp [formatCurrency, hf]
  · intro intl n c hn
    cases n <;> simp_all [formatCurrency, JSNum.isFinite, JSNum.finVal]
  · intro n d hn
    cases n <;> simp_all [formatNumber, JSNum.isFinite, JSNum.finVal]
  · intro n d hd
    refine ⟨(if (if n.isFinite then n.finVal else 0) < 0 then "-" else "") ++
        ⟨group3 (Nat.toDigits 10
          ((roundHalfUp (|if n.isFinite then n.finVal else 0| * (10 : ℚ) ^ d)).toNat / 10 ^ d))⟩,
      ⟨natDigitsPadded
        ((roundHalfUp (|if n.isFinite then n.finVal else 0| * (10 : ℚ) ^ d)).toNat % 10 ^ d) d⟩,
      ?_, ?_, ?_⟩
    · rw [formatNumber]
      rw [if_neg (Nat.pos_iff_ne_zero.mp hd)]
      simp [String.append_assoc]
    · exact natDigitsPadded_length _ d
    · exact natDigitsPadded_isDigit _ d

/-- C6 witness: the theorem applied at concrete inputs. -/
theorem c6_format_fallback_and_digits_witness :
    formatCurrency (fun _ => .error ()) (.finite 3) "XYZ" =
      "$" ++ formatNumber (.finite 3) 2 ∧
    formatNumber .nan 2 = formatNumber (.finite 0) 2 ∧
    ∃ intPart fracPart : String,
      formatNumber (.finite 3) 2 = intPart ++ "." ++ fracPart ∧
      fracPart.length = 2 ∧ ∀ c ∈ fracPart.data, c.isDigit = true :=
  ⟨by
    have h := c6_format_fallback_and_digits.2.1 (fun _ => .error ()) (.finite 3) "XYZ" rfl
    simpa [JSNum.isFinite, JSNum.finVal] using h,
   c6_format_fallback_and_digits.2.2.2.1 .nan 2 rfl,
   c6_format_fallback_and_digits.2.2.2.2.2 (.finite 3) 2 (by norm_num)⟩

/-! ## Claim C10 -/

/-- The code's kept ROI values coincide with the finite, strictly
positive computed ROIs. -/
theorem validRois_posRois (tasks : List Task) :
    (validRois tasks).map JSNum.finVal = posRois tasks := by
  induction tasks with
  | nil => rfl
  | cons t rest ih =>
      cases hv : calculateRoi t.revenue t.time with
      | finite v =>
          by_cases hp : (0 : ℚ) < v <;>
            simp_all [validRois, posRois, List.filter_cons, List.filterMap_cons,
              JSNum.isFinite, jsLt, JSNum.finVal, hv, hp]
      | nan =>
          simp_all [validRois, posRois, List.filter_cons, List.filterMap_cons,
            JSNum.isFinite]
      | posInf =>
          simp_all [validRois, posRois, List.filter_cons, List.filterMap_cons,
            JSNum.isFinite]
      | negInf =>
          simp_all [validRois, posRois, List.filter_cons, List.filterMap_cons,
            JSNum.isFinite]

theorem validRois_posRois_length (tasks : List Task) :
    (posRois tasks).length = (validRois tasks).length := by
  rw [← validRois_posRois]
  exact List.length_map _ _

/-- C10 counterexample: the claim's average "over only those tasks
whose computed ROI is strictly positive" fails on a task whose ROI
overflows to Infinity: its computed ROI is strictly positive (`0 < roi`
holds in JS), yet `Number.isFinite` excludes it, so such a task
contributes nothing and the average is 0 even though a positive-ROI
task exists. -/
theorem c10_overflow_counterexample :
    let t : Task := ⟨"overflow", 0, "T", .finite ((10 : ℚ) ^ 308),
      .finite (1 / (10 : ℚ) ^ 308), .finite 0, none, .Medium, .Todo⟩
    jsLt (.finite 0) (calculateRoi t.revenue t.time) = true ∧
    (calculateRoi t.revenue t.time).isFinite = false ∧
    validRois [t] = [] ∧ avgRoi [t] = 0 := by
  intro t
  have hcalc : calculateRoi t.revenue t.time = .posInf := calculateRoi_overflow_example
  refine ⟨?_, ?_, ?_, ?_⟩
  · rw [hcalc]
    rfl
  · rw [hcalc]
    rfl
  · show validRois [t] = []
    rw [validRois, List.map_cons, List.map_nil, hcalc]
    simp [JSNum.isFinite]
  · show avgRoi [t] = 0
    rw [avgRoi, validRois, List.map_cons, List.map_nil, hcalc]
    simp [JSNum.isFinite]

/-- C10 (amended): the Average ROI is the arithmetic mean of
`calculateRoi(t.revenue, t.time)` over only the tasks whose computed
ROI is finite and strictly positive — zero, negative, and non-finite
(overflowed) ROIs are excluded — and 0 when no such task exists; the
Grade is `A` when the average is at least 5, `B` when at least 2, `C`
when strictly positive, `—` otherwise. -/
theorem c10_average_roi_finite_positive :
    ∀ tasks : List Task,
      (avgRoi tasks =
        if posRois tasks = [] then 0
        else (posRois tasks).sum / (posRois tasks).length) ∧
      (5 ≤ avgRoi tasks → performanceGrade tasks = "A") ∧
      (2 ≤ avgRoi tasks → avgRoi tasks < 5 → performanceGrade tasks = "B") ∧
      (0 < avgRoi tasks → avgRoi tasks < 2 → performanceGrade tasks = "C") ∧
      (avgRoi tasks ≤ 0 → performanceGrade tasks = "—") := by
  intro tasks
  refine ⟨?_, ?_, ?_, ?_, ?_⟩
  · rw [avgRoi, ← validRois_posRois]
    rcases hvr : validRois tasks with _ | ⟨x, xs⟩
    · simp
    · simp only [List.length_cons, List.map_cons]
      rw [if_neg (by simp), if_neg (by simp)]
      simp [List.length_map]
  · intro h
    rw [performanceGrade, if_pos h]
  · intro h2 h5
    rw [performanceGrade, if_neg (by linarith), if_pos h2]
  · intro h0 h2
    rw [performanceGrade, if_neg (by linarith), if_neg (by linarith), if_pos h0]
  · intro h
    rw [performanceGrade, if_neg (by linarith), if_neg (by linarith),
      if_neg (by linarith)]

/-- C10 witness: the amended theorem applied at a concrete task list
(empty: no finite positive ROI, average 0, grade `—`). -/
theorem c10_average_roi_finite_positive_witness :
    avgRoi [] = 0 ∧ performanceGrade [] = "—" :=
  ⟨by simpa using (c10_average_roi_finite_positive []).1,
   (c10_average_roi_finite_positive []).2.2.2.2
     (le_of_eq (by simpa using (c10_average_roi_finite_positive []).1))⟩

/-! ## Claim C8 -/

theorem cons_filter_perm {l : List Task} {i : String} {t0 : Task}
    (hdist : l.Pairwise (fun a b => a.id ≠ b.id))
    (hfind : l.find? (fun x => x.id == i) = some t0) :
    (t0 :: l.filter (fun x => !(x.id == i))).Perm l := by
  induction l with
  | nil => simp at hfind
  | cons a rest ih =>
      rcases List.pairwise_cons.mp hdist with ⟨hhead, htail⟩
      by_cases ha : (a.id == i) = true
      · rw [List.find?_cons_of_pos (p := fun x => x.id == i) (a := a) rest ha] at hfind
        injection hfind with ht0
        subst ht0
        have hai : a.id = i := by simpa using ha
        have hrest : rest.filter (fun x => !(x.id == i)) = rest := by
          apply List.filter_eq_self.mpr
          intro x hx
          have hne : a.id ≠ x.id := hhead x hx
          simp only [Bool.not_eq_eq_eq_not, Bool.not_true, beq_eq_false_iff_ne]
          rw [← hai]
          exact fun hxi => hne hxi.symm
        rw [List.filter_cons, if_neg (by simp [ha]), hrest]
      · rw [List.find?_cons_of_neg (p := fun x => x.id == i) (a := a) rest ha] at hfind
        have hperm := ih htail hfind
        rw [List.filter_cons, if_pos (by simp [ha])]
        exact (List.Perm.swap a t0 _).trans (hperm.cons a)

/-- C8: in a state with pairwise-distinct task ids containing a task
with id `i`, `deleteTask i` followed by `undoDelete` yields a task list
with exactly the same tasks (the deleted task re-inserted at the front),
and leaves `lastDeleted` cleared and the snackbar closed. -/
theorem c8_delete_then_undo (s : TasksState) (i : String) (t : Task)
    (hdist : s.tasks.Pairwise (fun a b => a.id ≠ b.id))
    (hmem : t ∈ s.tasks) (hid : t.id = i) :
    ((undoDelete (deleteTask i s)).tasks).Perm s.tasks ∧
    (undoDelete (deleteTask i s)).lastDeleted = none ∧
    (undoDelete (deleteTask i s)).snackbarOpen = false ∧
    (undoDelete (deleteTask i s)).tasks.head? = s.tasks.find? (fun x => x.id == i) := by
  have hsome : (s.tasks.find? (fun x => x.id == i)).isSome := by
    rw [List.find?_isSome]
    exact ⟨t, hmem, by simp [hid]⟩
  rcases Option.isSome_iff_exists.mp hsome with ⟨t0, hfind⟩
  have hdel : deleteTask i s =
      { tasks := s.tasks.filter (fun x => !(x.id == i)),
        lastDeleted := some t0, snackbarOpen := true } := by
    rw [deleteTask, hfind]
  rw [hdel]
  refine ⟨?_, rfl, rfl, ?_⟩
  · exact cons_filter_perm hdist hfind
  · rw [undoDelete]
    simp [hfind]

/-- C8 witness: the theorem applied at a concrete two-task state. -/
theorem c8_delete_then_undo_witness :
    let t1 : Task := ⟨"a", 1, "First", .finite 10, .finite 2, .finite 5, none, .High, .Todo⟩
    let t2 : Task := ⟨"b", 2, "Second", .finite 8, .finite 4, .finite 2, none, .Low, .Done⟩
    let s : TasksState := ⟨[t1, t2], none, false⟩
    ((undoDelete (deleteTask "b" s)).tasks).Perm s.tasks ∧
    (undoDelete (deleteTask "b" s)).lastDeleted = none ∧
    (undoDelete (deleteTask "b" s)).snackbarOpen = false ∧
    (undoDelete (deleteTask "b" s)).tasks.head? = s.tasks.find? (fun x => x.id == "b") := by
  intro t1 t2 s
  exact c8_delete_then_undo s "b" t2 (by decide) (by decide) rfl

/-! ## Comparator lemmas -/

theorem cmp3_self {α : Type} [LinearOrder α] (a : α) : cmp3 a a = .eq := by
  simp [cmp3]

theorem cmp3_eq_eq_iff {α : Type} [LinearOrder α] {a b : α} :
    cmp3 a b = .eq ↔ a = b := by
  by_cases h1 : a < b
  · simp [cmp3, h1, ne_of_lt h1]
  · by_cases h2 : b < a
    · simp [cmp3, h1, h2, ne_of_gt h2]
    · simp [cmp3, h1, h2, le_antisymm (not_lt.mp h2) (not_lt.mp h1)]

theorem cmp3_eq_lt_iff {α : Type} [LinearOrder α] {a b : α} :
    cmp3 a b = .lt ↔ a < b := by
  by_cases h1 : a < b
  · simp [cmp3, h1]
  · by_cases h2 : b < a <;> simp [cmp3, h1, h2]

theorem cmp3_eq_gt_iff {α : Type} [LinearOrder α] {a b : α} :
    cmp3 a b = .gt ↔ b < a := by
  by_cases h1 : a < b
  · simp [cmp3, h1, lt_asymm h1]
  · by_cases h2 : b < a <;> simp [cmp3, h1, h2]

theorem cmp3_swap {α : Type} [LinearOrder α] (a b : α) :
    cmp3 b a = (cmp3 a b).swap := by
  by_cases h1 : a < b
  · simp [cmp3, h1, lt_asymm h1, Ordering.swap]
  · by_cases h2 : b < a <;> simp [cmp3, h1, h2, Ordering.swap]

theorem jsOrZero_ne_nan (x : JSNum) : jsOrZero x ≠ .nan := by
  cases x <;> simp [jsOrZero]

theorem jsCompare_self {a : JSNum} (ha : a ≠ .nan) : jsCompare a a = .eq := by
  cases a with
  | finite q => simpa [jsCompare] using cmp3_self q
  | _ => simp_all [jsCompare]

theorem jsCompare_swap {a b : JSNum} (ha : a ≠ .nan) (hb : b ≠ .nan) :
    jsCompare b a = (jsCompare a b).swap := by
  cases a <;> cases b <;>
    first
    | (show cmp3 _ _ = (cmp3 _ _).swap
       rw [cmp3_swap])
    | simp_all [jsCompare, Ordering.swap]

theorem jsCompare_eq_eq_iff {a b : JSNum} (ha : a ≠ .nan) (hb : b ≠ .nan) :
    jsCompare a b = .eq ↔ a = b := by
  cases a <;> cases b <;>
    first
    | (show cmp3 _ _ = Ordering.eq ↔ _
       rw [cmp3_eq_eq_iff]
       simp)
    | simp_all [jsCompare]

/-! ## Claim C2 -/

/-- C2: the task comparator orders two tasks first by ROI descending
(on the `|| 0`-coerced keys), then by priority rank (High=3, Medium=2,
Low=1) descending, then by title case-insensitively ascending, then by
`createdAt` descending: with equal ROI the higher priority rank comes
first, and with equal ROI, priority and title the more recent
`createdAt` comes first. -/
theorem c2_comparator_four_keys :
    (priRank .High = 3 ∧ priRank .Medium = 2 ∧ priRank .Low = 1) ∧
    (∀ a b : Task, jsCompare (jsOrZero a.roi) (jsOrZero b.roi) = .gt →
      compareTasks a b = .lt) ∧
    (∀ a b : Task, jsOrZero a.roi = jsOrZero b.roi →
      priRank b.priority < priRank a.priority → compareTasks a b = .lt) ∧
    (∀ a b : Task, jsOrZero a.roi = jsOrZero b.roi → a.priority = b.priority →
      jsToLower a.title < jsToLower b.title → compareTasks a b = .lt) ∧
    (∀ a b : Task, jsOrZero a.roi = jsOrZero b.roi → a.priority = b.priority →
      jsToLower a.title = jsToLower b.title → b.createdAt < a.createdAt →
      compareTasks a b = .lt) := by
  refine ⟨⟨rfl, rfl, rfl⟩, ?_, ?_, ?_, ?_⟩
  · intro a b h
    have hA := jsOrZero_ne_nan a.roi
    have hB := jsOrZero_ne_nan b.roi
    have hne : jsOrZero a.roi ≠ jsOrZero b.roi := by
      intro he
      rw [he, jsCompare_self hB] at h
      exact absurd h (by simp)
    simp only [compareTasks]
    rw [if_pos hne, jsCompare_swap hA hB, h]
    rfl
  · intro a b hroi hpri
    simp only [compareTasks]
    rw [if_neg (not_not_intro hroi), if_pos (ne_of_gt hpri)]
    exact cmp3_eq_lt_iff.mpr hpri
  · intro a b hroi hpri htitle
    simp only [compareTasks]
    rw [if_neg (not_not_intro hroi), if_neg (not_not_intro (by rw [hpri])),
      if_pos (ne_of_lt htitle)]
    exact cmp3_eq_lt_iff.mpr htitle
  · intro a b hroi hpri htitle hcreated
    simp only [compareTasks]
    rw [if_neg (not_not_intro hroi), if_neg (not_not_intro (by rw [hpri])),
      if_neg (not_not_intro htitle)]
    exact cmp3_eq_lt_iff.mpr hcreated

/-- C2 witness: the spec's own example — equal ROI 5, the High-priority
task `A` precedes the Low-priority task `B`; and an equal-ROI,
equal-priority, equal-title pair is ordered by more recent `createdAt`
first. -/
theorem c2_comparator_four_keys_witness :
    let tB : Task := ⟨"1", 1, "B", .finite 0, .finite 0, .finite 5, none, .Low, .Todo⟩
    let tA : Task := ⟨"2", 2, "A", .finite 0, .finite 0, .finite 5, none, .High, .Todo⟩
    let t3 : Task := ⟨"3", 30, "Same", .finite 0, .finite 0, .finite 5, none, .Medium, .Todo⟩
    let t4 : Task := ⟨"4", 20, "Same", .finite 0, .finite 0, .finite 5, none, .Medium, .Todo⟩
    compareTasks tA tB = .lt ∧ compareTasks t3 t4 = .lt := by
  intro tB tA t3 t4
  constructor
  · exact c2_comparator_four_keys.2.2.1 tA tB rfl (by decide)
  · exact c2_comparator_four_keys.2.2.2.2 t3 t4 rfl rfl rfl (by decide)

/-! ## Claim C7: the comparator as a lexicographic key comparison -/

/-- A non-NaN JS number as a lexicographic pair: rank (-1 for
`-Infinity`, 0 for finite, 1 for `Infinity`) then the finite value. -/
def rvKey : JSNum → Lex (ℤ × ℚ)
  | .negInf => toLex (-1, 0)
  | .finite q => toLex (0, q)
  | .posInf => toLex (1, 0)
  | .nan => toLex (0, 0)

theorem cmp3_toLex_same_fst {z : ℤ} (q r : ℚ) :
    cmp3 (toLex (z, q)) (toLex (z, r)) = cmp3 q r := by
  simp only [cmp3, Prod.Lex.lt_iff]
  simp

theorem cmp3_toLex_fst_lt {x y : ℤ} (h : x < y) (q r : ℚ) :
    cmp3 (toLex (x, q)) (toLex (y, r)) = .lt := by
  rw [cmp3, if_pos]
  exact (Prod.Lex.lt_iff _ _).mpr (Or.inl h)

theorem cmp3_toLex_fst_gt {x y : ℤ} (h : y < x) (q r : ℚ) :
    cmp3 (toLex (x, q)) (toLex (y, r)) = .gt := by
  rw [cmp3, if_neg, if_pos]
  · exact (Prod.Lex.lt_iff _ _).mpr (Or.inl h)
  · rw [Prod.Lex.lt_iff]
    rintro (hlt | ⟨he, _⟩)
    · exact absurd hlt (lt_asymm h)
    · exact absurd he (ne_of_gt h)

theorem jsCompare_eq_cmp3_rvKey {a b : JSNum} (ha : a ≠ .nan) (hb : b ≠ .nan) :
    jsCompare a b = cmp3 (rvKey a) (rvKey b) := by
  cases a with
  | nan => exact absurd rfl ha
  | finite q =>
      cases b with
      | nan => exact absurd rfl hb
      | finite r => simp only [rvKey, cmp3_toLex_same_fst]; rfl
      | posInf => simp only [rvKey, cmp3_toLex_fst_lt (by norm_num : (0:ℤ) < 1)]; rfl
      | negInf => simp only [rvKey, cmp3_toLex_fst_gt (by norm_num : (-1:ℤ) < 0)]; rfl
  | posInf =>
      cases b with
      | nan => exact absurd rfl hb
      | finite r => simp only [rvKey, cmp3_toLex_fst_gt (by norm_num : (0:ℤ) < 1)]; rfl
      | posInf => simp only [rvKey, cmp3_toLex_same_fst, cmp3_self]; rfl
      | negInf => simp only [rvKey, cmp3_toLex_fst_gt (by norm_num : (-1:ℤ) < 1)]; rfl
  | negInf =>
      cases b with
      | nan => exact absurd rfl hb
      | finite r => simp only [rvKey, cmp3_toLex_fst_lt (by norm_num : (-1:ℤ) < 0)]; rfl
      | posInf => simp only [rvKey, cmp3_toLex_fst_lt (by norm_num : (-1:ℤ) < 1)]; rfl
      | negInf => simp only [rvKey, cmp3_toLex_same_fst, cmp3_self]; rfl

theorem Ordering_then_ne_gt {o₁ o₂ : Ordering} :
    o₁.then o₂ ≠ .gt ↔ o₁ = .lt ∨ (o₁ = .eq ∧ o₂ ≠ .gt) := by
  cases o₁ <;> cases o₂ <;> decide

theorem Ordering_then_eq_eq {o₁ o₂ : Ordering} :
    o₁.then o₂ = .eq ↔ o₁ = .eq ∧ o₂ = .eq := by
  cases o₁ <;> cases o₂ <;> decide

theorem Ordering_then_swap (o₁ o₂ : Ordering) :
    (o₁.then o₂).swap = o₁.swap.then o₂.swap := by
  cases o₁ <;> cases o₂ <;> decide

theorem Ordering_swap_ne_gt {o : Ordering} : o.swap ≠ .gt ↔ o ≠ .lt := by
  cases o <;> decide

theorem Ordering_ne_gt_ne_lt_eq {o : Ordering} (h1 : o ≠ .gt) (h2 : o ≠ .lt) :
    o = .eq := by
  cases o <;> simp_all

theorem cmp3_ne_gt_iff {α : Type} [LinearOrder α] {x y : α} :
    cmp3 x y ≠ .gt ↔ x ≤ y := by
  rw [← not_lt]
  exact not_congr cmp3_eq_gt_iff

/-- An `if`-guarded comparator stage equals an `Ordering.then` stage
(ascending orientation). -/
theorem if_ne_cmp3_then {α : Type} [DecidableEq α] [LinearOrder α] (x y : α)
    (rest : Ordering) :
    (if x ≠ y then cmp3 x y else rest) = (cmp3 x y).then rest := by
  by_cases h : x = y
  · subst h
    rw [if_neg (not_not_intro rfl), cmp3_self]
    rfl
  · rw [if_pos h]
    cases hc : cmp3 x y
    · rfl
    · exact absurd (cmp3_eq_eq_iff.mp hc) h
    · rfl

/-- An `if`-guarded comparator stage equals an `Ordering.then` stage
(descending orientation: the comparison swaps the operands of the
guard). -/
theorem if_ne_cmp3_then_desc {α : Type} [DecidableEq α] [LinearOrder α] (x y : α)
    (rest : Ordering) :
    (if x ≠ y then cmp3 y x else rest) = (cmp3 y x).then rest := by
  by_cases h : x = y
  · subst h
    rw [if_neg (not_not_intro rfl), cmp3_self]
    rfl
  · rw [if_pos h]
    cases hc : cmp3 y x
    · rfl
    · exact absurd (cmp3_eq_eq_iff.mp hc).symm h
    · rfl

/-- The ROI stage of the comparator equals an `Ordering.then` stage. -/
theorem if_ne_jsCompare_then {a b : JSNum} (ha : a ≠ .nan) (hb : b ≠ .nan)
    (rest : Ordering) :
    (if a ≠ b then jsCompare b a else rest) = (jsCompare b a).then rest := by
  by_cases h : a = b
  · subst h
    rw [if_neg (not_not_intro rfl), jsCompare_self ha]
    rfl
  · rw [if_pos h]
    cases hc : jsCompare b a
    · rfl
    · exact absurd ((jsCompare_eq_eq_iff hb ha).mp hc).symm h
    · rfl

/-- `compareTasks` is the lexicographic `Ordering.then` chain of its
four key comparisons. -/
theorem compareTasks_eq_then (a b : Task) :
    compareTasks a b =
      (cmp3 (rvKey (jsOrZero b.roi)) (rvKey (jsOrZero a.roi))).then
       ((cmp3 (priRank b.priority) (priRank a.priority)).then
        ((cmp3 (jsToLower a.title) (jsToLower b.title)).then
         (cmp3 b.createdAt a.createdAt))) := by
  simp only [compareTasks]
  rw [if_ne_cmp3_then, if_ne_cmp3_then_desc,
    if_ne_jsCompare_then (jsOrZero_ne_nan _) (jsOrZero_ne_nan _),
    jsCompare_eq_cmp3_rvKey (jsOrZero_ne_nan _) (jsOrZero_ne_nan _)]

theorem compareTasks_swap_eq (a b : Task) :
    compareTasks b a = (compareTasks a b).swap := by
  rw [compareTasks_eq_then, compareTasks_eq_then]
  rw [Ordering_then_swap, Ordering_then_swap, Ordering_then_swap]
  rw [cmp3_swap (rvKey (jsOrZero b.roi)) (rvKey (jsOrZero a.roi)),
    cmp3_swap (priRank b.priority) (priRank a.priority),
    cmp3_swap (jsToLower a.title) (jsToLower b.title),
    cmp3_swap (b.createdAt) (a.createdAt)]

/-- Lexicographic-stage transitivity for `≠ .gt` chains. -/
theorem cmp3_then_trans {α : Type} [LinearOrder α] {x y z : α} {o₁ o₂ o₃ : Ordering}
    (rec : o₁ ≠ .gt → o₂ ≠ .gt → o₃ ≠ .gt)
    (h1 : (cmp3 x y).then o₁ ≠ .gt) (h2 : (cmp3 y z).then o₂ ≠ .gt) :
    (cmp3 x z).then o₃ ≠ .gt := by
  rcases Ordering_then_ne_gt.mp h1 with hl | ⟨he, ho⟩
  · have hxy := cmp3_eq_lt_iff.mp hl
    rcases Ordering_then_ne_gt.mp h2 with hl2 | ⟨he2, _⟩
    · exact Ordering_then_ne_gt.mpr
        (Or.inl (cmp3_eq_lt_iff.mpr (lt_trans hxy (cmp3_eq_lt_iff.mp hl2))))
    · have hyz := cmp3_eq_eq_iff.mp he2
      exact Ordering_then_ne_gt.mpr (Or.inl (cmp3_eq_lt_iff.mpr (hyz ▸ hxy)))
  · have hxy := cmp3_eq_eq_iff.mp he
    rcases Ordering_then_ne_gt.mp h2 with hl2 | ⟨he2, ho2⟩
    · exact Ordering_then_ne_gt.mpr
        (Or.inl (cmp3_eq_lt_iff.mpr (hxy ▸ cmp3_eq_lt_iff.mp hl2)))
    · have hyz := cmp3_eq_eq_iff.mp he2
      exact Ordering_then_ne_gt.mpr
        (Or.inr ⟨cmp3_eq_eq_iff.mpr (hxy.trans hyz), rec ho ho2⟩)

theorem taskLE_iff {a b : Task} : taskLE a b = true ↔ compareTasks a b ≠ .gt := by
  simp [taskLE]

theorem taskLE_trans : ∀ a b c : Task,
    taskLE a b = true → taskLE b c = true → taskLE a c = true := by
  intro a b c h1 h2
  rw [taskLE_iff] at h1 h2 ⊢
  rw [compareTasks_eq_then] at h1 h2 ⊢
  refine cmp3_then_trans (fun hbc hab => ?_) h2 h1
  refine cmp3_then_trans (fun hbc2 hab2 => ?_) hbc hab
  refine cmp3_then_trans (fun hab3 hbc3 => ?_) hab2 hbc2
  rw [cmp3_ne_gt_iff] at hab3 hbc3 ⊢
  exact le_trans hbc3 hab3

theorem taskLE_total : ∀ a b : Task, (taskLE a b || taskLE b a) = true := by
  intro a b
  by_cases h : compareTasks a b = .gt
  · have : compareTasks b a = .lt := by rw [compareTasks_swap_eq, h]; rfl
    have : taskLE b a = true := taskLE_iff.mpr (by simp [this])
    simp [this]
  · simp [taskLE_iff.mpr h]

theorem priRank_inj {p q : Priority} (h : priRank p = priRank q) : p = q := by
  cases p <;> cases q <;> simp_all [priRank]

theorem rvKey_inj {a b : JSNum} (ha : a ≠ .nan) (hb : b ≠ .nan)
    (h : rvKey a = rvKey b) : a = b := by
  cases a <;> cases b <;> simp_all [rvKey] <;> omega

/-- Mutual `taskLE` forces all four sort keys to agree. -/
theorem taskLE_antisymm_keys {a b : Task}
    (h1 : taskLE a b = true) (h2 : taskLE b a = true) : taskKey a = taskKey b := by
  rw [taskLE_iff] at h1 h2
  rw [compareTasks_swap_eq] at h2
  have heq : compareTasks a b = .eq :=
    Ordering_ne_gt_ne_lt_eq h1 (Ordering_swap_ne_gt.mp h2)
  rw [compareTasks_eq_then] at heq
  rcases Ordering_then_eq_eq.mp heq with ⟨e1, erest⟩
  rcases Ordering_then_eq_eq.mp erest with ⟨e2, erest2⟩
  rcases Ordering_then_eq_eq.mp erest2 with ⟨e3, e4⟩
  have k1 : jsOrZero a.roi = jsOrZero b.roi :=
    (rvKey_inj (jsOrZero_ne_nan _) (jsOrZero_ne_nan _) (cmp3_eq_eq_iff.mp e1)).symm
  have k2 : priRank a.priority = priRank b.priority := (cmp3_eq_eq_iff.mp e2).symm
  have k3 : jsToLower a.title = jsToLower b.title := cmp3_eq_eq_iff.mp e3
  have k4 : a.createdAt = b.createdAt := (cmp3_eq_eq_iff.mp e4).symm
  simp [taskKey, k1, k2, k3, k4]

/-- A permutation-invariant sorted list is unique when the order is
antisymmetric on the elements of the list. -/
theorem sorted_perm_unique {α : Type} {r : α → α → Prop} :
    ∀ (l₁ l₂ : List α), l₁.Perm l₂ → l₁.Pairwise r → l₂.Pairwise r →
      (∀ a ∈ l₁, ∀ b ∈ l₁, r a b → r b a → a = b) → l₁ = l₂ := by
  intro l₁
  induction l₁ with
  | nil =>
      intro l₂ hp _ _ _
      exact hp.nil_eq
  | cons a t₁ ih =>
      intro l₂ hp hs₁ hs₂ hanti
      cases l₂ with
      | nil => exact absurd hp.symm (by simp)
      | cons b t₂ =>
          have hab : a = b := by
            by_contra hne
            have hamem : a ∈ b :: t₂ := hp.mem_iff.mp (by simp)
            have hbmem : b ∈ a :: t₁ := hp.mem_iff.mpr (by simp)
            have hat2 : a ∈ t₂ := by
              rcases List.mem_cons.mp hamem with h | h
              · exact absurd h hne
              · exact h
            have hbt1 : b ∈ t₁ := by
              rcases List.mem_cons.mp hbmem with h | h
              · exact absurd h.symm hne
              · exact h
            have hrab : r a b := (List.pairwise_cons.mp hs₁).1 b hbt1
            have hrba : r b a := (List.pairwise_cons.mp hs₂).1 a hat2
            exact hne (hanti a (by simp) b (by simp [hbt1]) hrab hrba)
          subst hab
          have hpt : t₁.Perm t₂ := hp.cons_inv
          have ht := ih t₂ hpt (List.pairwise_cons.mp hs₁).2 (List.pairwise_cons.mp hs₂).2
            (fun x hx y hy => hanti x (by simp [hx]) y (by simp [hy]))
          rw [ht]

/-- C7: on any list of tasks in which no two distinct tasks agree on all
four sort keys, the comparator is totally ordering (total, transitive,
and antisymmetric up to key equality), so sorting any two arrangements
of the same tasks yields the same output sequence. -/
theorem c7_sort_deterministic :
    (∀ a b : Task, (taskLE a b || taskLE b a) = true) ∧
    (∀ a b c : Task, taskLE a b = true → taskLE b c = true → taskLE a c = true) ∧
    (∀ a b : Task, taskLE a b = true → taskLE b a = true → taskKey a = taskKey b) ∧
    (∀ l₁ l₂ : List Task,
      l₁.Pairwise (fun a b => taskKey a = taskKey b → a = b) →
      l₁.Perm l₂ → sortTasks l₁ = sortTasks l₂) := by
  refine ⟨taskLE_total, taskLE_trans, fun a b => taskLE_antisymm_keys, ?_⟩
  intro l₁ l₂ hkeys hperm
  apply sorted_perm_unique (r := fun a b => taskLE a b = true)
  · exact (List.mergeSort_perm l₁ taskLE).trans
      (hperm.trans (List.mergeSort_perm l₂ taskLE).symm)
  · exact List.sorted_mergeSort taskLE_trans taskLE_total l₁
  · exact List.sorted_mergeSort taskLE_trans taskLE_total l₂
  · intro a ha b hb hab hba
    have ha1 : a ∈ l₁ := List.mem_mergeSort.mp ha
    have hb1 : b ∈ l₁ := List.mem_mergeSort.mp hb
    have hkey := taskLE_antisymm_keys hab hba
    rcases eq_or_ne a b with rfl | hne
    · rfl
    · have hsymm : Symmetric (fun a b : Task => taskKey a = taskKey b → a = b) := by
        intro x y hxy hk
        exact (hxy hk.symm).symm
      exact hkeys.forall hsymm ha1 hb1 hne hkey

/-- C7 witness: the theorem applied to a concrete two-element list and
its swapped arrangement. -/
theorem c7_sort_deterministic_witness :
    let t1 : Task := ⟨"a", 1, "First", .finite 10, .finite 2, .finite 5, none, .High, .Todo⟩
    let t2 : Task := ⟨"b", 2, "Second", .finite 8, .finite 4, .finite 2, none, .Low, .Done⟩
    sortTasks [t1, t2] = sortTasks [t2, t1] := by
  intro t1 t2
  exact c7_sort_deterministic.2.2.2 [t1, t2] [t2, t1] (by decide)
    (List.Perm.swap t2 t1 [])

/-! ## Claim C9: CSV escaping round trip -/

theorem splitAux_nil (inQ : Bool) (cur : List Char) (res : List (List Char)) :
    splitAux inQ cur res [] = res ++ [cur] := by
  rw [splitAux.eq_def]

theorem splitAux_false_comma (cur : List Char) (res : List (List Char))
    (rest : List Char) :
    splitAux false cur res (',' :: rest) = splitAux false [] (res ++ [cur]) rest := by
  rw [splitAux.eq_def]
  simp

theorem splitAux_false_quote (cur : List Char) (res : List (List Char))
    (rest : List Char) :
    splitAux false cur res ('"' :: rest) = splitAux true cur res rest := by
  rw [splitAux.eq_def]
  simp

theorem splitAux_false_other {c : Char} (hc1 : c ≠ ',') (hc2 : c ≠ '"')
    (cur : List Char) (res : List (List Char)) (rest : List Char) :
    splitAux false cur res (c :: rest) = splitAux false (cur ++ [c]) res rest := by
  rw [splitAux.eq_def]
  simp [hc1, hc2]

theorem splitAux_true_other {c : Char} (hc : c ≠ '"')
    (cur : List Char) (res : List (List Char)) (rest : List Char) :
    splitAux true cur res (c :: rest) = splitAux true (cur ++ [c]) res rest := by
  rw [splitAux.eq_def]
  simp [hc]

theorem splitAux_true_quote_pair (cur : List Char) (res : List (List Char))
    (rest : List Char) :
    splitAux true cur res ('"' :: '"' :: rest) = splitAux true (cur ++ ['"']) res rest := by
  rw [splitAux.eq_def]
  simp

theorem splitAux_true_quote_end (cur : List Char) (res : List (List Char)) :
    splitAux true cur res ['"'] = splitAux false cur res [] := by
  rw [splitAux.eq_def]
  simp [splitAux_nil]

theorem splitAux_true_quote_close {r : Char} (hr : r ≠ '"')
    (cur : List Char) (res : List (List Char)) (rs : List Char) :
    splitAux true cur res ('"' :: r :: rs) = splitAux false cur res (r :: rs) := by
  rw [splitAux.eq_def]
  simp only [if_pos rfl, if_true]
  split
  · next heq => exact absurd (List.cons_eq_cons.mp heq).1 hr
  · rfl

/-- Scanning an unquoted field body consumes it into `cur`. -/
theorem splitAux_no_special (f : List Char) (rest : List Char) (cur : List Char)
    (res : List (List Char)) (hf : ∀ c ∈ f, c ≠ ',' ∧ c ≠ '"') :
    splitAux false cur res (f ++ rest) = splitAux false (cur ++ f) res rest := by
  induction f generalizing cur with
  | nil => simp
  | cons c cs ih =>
      rcases hf c (by simp) with ⟨hc1, hc2⟩
      rw [List.cons_append, splitAux_false_other hc1 hc2]
      rw [ih (cur ++ [c]) (fun x hx => hf x (by simp [hx]))]
      simp

/-- Scanning a quote-doubled field body inside quotes consumes it into
`cur` and leaves quote mode at the closing quote. -/
theorem splitAux_quoted (f : List Char) (rest : List Char) (cur : List Char)
    (res : List (List Char)) (hrest : rest.head? ≠ some '"') :
    splitAux true cur res (doubleQuotes f ++ ('"' :: rest)) =
      splitAux false (cur ++ f) res rest := by
  induction f generalizing cur with
  | nil =>
      rw [doubleQuotes, List.nil_append]
      cases rest with
      | nil =>
          rw [splitAux_true_quote_end]
          simp
      | cons r rs =>
          have hr : r ≠ '"' := by simpa using hrest
          rw [splitAux_true_quote_close hr]
          simp
  | cons c cs ih =>
      by_cases hc : c = '"'
      · subst hc
        rw [doubleQuotes, if_pos rfl]
        rw [List.cons_append, List.cons_append, splitAux_true_quote_pair]
        rw [ih (cur ++ ['"'])]
        simp
      · rw [doubleQuotes, if_neg hc, List.cons_append, splitAux_true_other hc]
        rw [ih (cur ++ [c])]
        simp

/-- Scanning one escaped field from field-start consumes exactly the
original field. -/
theorem splitAux_escape (f : List Char) (rest : List Char) (res : List (List Char))
    (hrest : rest.head? ≠ some '"') :
    splitAux false [] res (escList f ++ rest) = splitAux false f res rest := by
  by_cases hq : f.any isCsvSpecial
  · rw [escList, if_pos hq, List.cons_append, splitAux_false_quote]
    rw [List.append_assoc, List.singleton_append]
    rw [splitAux_quoted f rest [] res hrest]
    rw [List.nil_append]
  · rw [escList, if_neg hq]
    have hf : ∀ c ∈ f, c ≠ ',' ∧ c ≠ '"' := by
      intro c hc
      have : ¬isCsvSpecial c := by
        intro hs
        exact hq (List.any_eq_true.mpr ⟨c, hc, hs⟩)
      constructor
      · intro h1
        exact this (by simp [isCsvSpecial, h1])
      · intro h2
        exact this (by simp [isCsvSpecial, h2])
    rw [splitAux_no_special f rest [] res hf, List.nil_append]

/-- Scanning the comma-join of the escaped fields emits exactly the
original fields. -/
theorem splitAux_join (fields : List String) (res : List (List Char))
    (h : fields ≠ []) :
    splitAux false [] res (joinComma (fields.map escapeCsv)).data =
      res ++ fields.map String.data := by
  induction fields generalizing res with
  | nil => exact absurd rfl h
  | cons f fs ih =>
      cases fs with
      | nil =>
          show splitAux false [] res (escapeCsv f).data = res ++ [f.data]
          have hdata : (escapeCsv f).data = escList f.data ++ [] := by
            simp [escapeCsv]
          rw [hdata, splitAux_escape f.data [] res (by simp)]
          rw [splitAux_nil]
      | cons g gs =>
          show splitAux false [] res
              ((escapeCsv f ++ "," ++ joinComma ((g :: gs).map escapeCsv)).data) =
            res ++ (f.data :: (g :: gs).map String.data)
          rw [String.data_append, String.data_append]
          rw [List.append_assoc]
          have hcomma : (",".data ++ (joinComma ((g :: gs).map escapeCsv)).data) =
              ',' :: (joinComma ((g :: gs).map escapeCsv)).data := rfl
          rw [hcomma]
          have hescdata : (escapeCsv f).data = escList f.data := rfl
          rw [hescdata]
          rw [splitAux_escape f.data _ res (by simp)]
          rw [splitAux_false_comma]
          rw [ih (res ++ [f.data]) (by simp)]
          simp

/-- C9 counterexample: the claim fails at the empty field list — both
hypotheses hold vacuously, yet splitting the join of no fields yields
`[""]`, not `[]`. -/
theorem c9_csv_round_trip_counterexample :
    (∀ f ∈ ([] : List String), jsTrim f = f ∧ ¬('\n' ∈ f.data)) ∧
    splitCsvLine (joinComma (([] : List String).map escapeCsv)) = [""] ∧
    ([""] : List String) ≠ ([] : List String) := by
  refine ⟨by simp, ?_, by simp⟩
  show splitCsvLine "" = [""]
  simp [splitCsvLine, splitAux, jsTrim, listTrim]

/-- C9 (amended to nonempty lists): for every nonempty list of fields
with no newline and no leading or trailing whitespace, `splitCsvLine`
applied to the comma-join of the `escapeCsv` of each field returns
exactly the original list. -/
theorem c9_csv_round_trip (fields : List String) (hne : fields ≠ [])
    (htrim : ∀ f ∈ fields, jsTrim f = f)
    (_hnl : ∀ f ∈ fields, ¬('\n' ∈ f.data)) :
    splitCsvLine (joinComma (fields.map escapeCsv)) = fields := by
  rw [splitCsvLine, splitAux_join fields [] hne, List.nil_append, List.map_map]
  have hmap : ∀ f ∈ fields, ((fun cs => jsTrim ⟨cs⟩) ∘ String.data) f = id f := by
    intro f hf
    simpa using htrim f hf
  rw [List.map_congr_left hmap, List.map_id]

/-- C9 witness: the amended theorem applied at a concrete field list
exercising the quoting (comma, double quote) and plain paths. -/
theorem c9_csv_round_trip_witness :
    splitCsvLine (joinComma (["a,b", "c\"d", "plain"].map escapeCsv)) =
      ["a,b", "c\"d", "plain"] :=
  c9_csv_round_trip ["a,b", "c\"d", "plain"] (by simp)
    (by decide) (by decide)

end TaskROI
